import Mathlib

/-!
Verification of the transaction-ledger reconciliation and amount-formatting
engine of the `sui` wallet sources.

The development shallowly embeds:
* the `Coin` utility class (`Coin.getFormatData`, `Coin.fromInput`,
  `Coin.getCoinSymbol`, `Coin.getCoinTypeArg`, `COIN_DENOMINATIONS`),
* the `txresults` redux slice: `deduplicate`, the classification /
  reconciliation pipeline of `getTransactionsByAddress`, the object
  enrichment stage, and the `txSlice` reducer with its `initialState`.

Machine numbers are embedded as `Nat`/`Int`/`Rat`: JavaScript float
arithmetic performed by the source at the display boundary is modelled by
exact rational arithmetic, and a JavaScript exception (e.g. `BigInt(NaN)`)
is modelled by `Option`/`Except`.
-/

set_option maxHeartbeats 1000000

namespace SuiWallet

/-! ### Coin utilities, from the `Coin` class in the sui-objects slice -/

def COIN_PACKAGE_ID : String := "0x2"

def COIN_MODULE_NAME : String := "coin"

def COIN_TYPE : String := COIN_PACKAGE_ID ++ "::" ++ COIN_MODULE_NAME ++ "::Coin"

/-- `COIN_DENOMINATIONS`: the record literal maps exactly the key
`'0x2::sui::SUI'` to `1e9`; every other coin type is absent. -/
def COIN_DENOMINATIONS (coinType : String) : Option ℚ :=
  if coinType = "0x2::sui::SUI" then some (10 ^ 9) else none

inductive FormatMode where
  | accurate
  | loose
deriving DecidableEq

/-- the `'standard' | 'compact'` values of the `NumberFormatOptions`
field that selects compact rendering. -/
inductive NumStyle where
  | standard
  | compact
deriving DecidableEq

/-- `NumberFormatOptions` of the source. `fmtStyle` models the field that
chooses between standard and compact rendering (its source name collides
with a reserved word of this development); an unset optional field is
`none`. -/
structure NumberFormatOptions where
  fmtStyle : Option NumStyle := none
  minimumFractionDigits : Option Nat := none
  maximumFractionDigits : Option Nat := none
deriving DecidableEq

structure FormatData where
  value : ℚ
  symbol : String
  formatOptions : NumberFormatOptions
  forcedFormatValue : Option String
deriving DecidableEq

namespace Coin

/-- `Coin.getCoinSymbol`: `coinTypeArg.substring(coinTypeArg.lastIndexOf(':') + 1)`,
i.e. the suffix after the last `':'` (the whole string when there is none). -/
def getCoinSymbol (coinTypeArg : String) : String :=
  String.mk ((coinTypeArg.toList.reverse.takeWhile (fun c => c != ':')).reverse)

/-- `Coin.getCoinTypeArg` restricted to its regex match against the object
type string: `/^0x2::coin::Coin<(.+)>$/` returns the captured group or
`null`.  `.` does not match a line terminator. -/
def getCoinTypeArg (type : String) : Option String :=
  let chars := type.toList
  if chars.take 16 = "0x2::coin::Coin<".toList then
    let rest := chars.drop 16
    if 2 ≤ rest.length ∧ rest.getLast? = some '>' then
      let mid := rest.dropLast
      if mid.all (fun c =>
          c != '\n' && c != '\r' && c != Char.ofNat 0x2028 && c != Char.ofNat 0x2029)
      then some (String.mk mid) else none
    else none
  else none

/-- `Coin.getFormatData(balance, coinArgType, mode)`.  The float division
`Number(balance) / denomination` is modelled exactly over `ℚ`; the forced
placeholder string of the source is `'- -'`. -/
def getFormatData (balance : ℤ) (coinArgType : String) (mode : FormatMode) :
    FormatData :=
  let denomination : ℚ := (COIN_DENOMINATIONS coinArgType).getD 1
  let adjValue : ℚ := (balance : ℚ) / denomination
  let formatOptions : NumberFormatOptions :=
    match mode with
    | .accurate => { maximumFractionDigits := some 20 }
    | .loose =>
        if (balance : ℚ) < denomination then
          { maximumFractionDigits := some 8 }
        else
          { maximumFractionDigits := some 3, fmtStyle := some NumStyle.compact }
  { value := adjValue
    symbol := getCoinSymbol coinArgType
    formatOptions := formatOptions
    forcedFormatValue :=
      if mode = FormatMode.loose ∧ adjValue < 1 / 10 ^ 8 then some "- -" else none }

end Coin

/-! ### JavaScript numeric-string parsing, for `Coin.fromInput`

`parseFloat` consumes the longest numeric prefix after leading whitespace
and yields `NaN` (here `none`) when there is none.  The `Infinity` literal
is folded into `none` as well: through `Coin.fromInput` both `NaN` and an
infinity make the final `BigInt` conversion throw, which is the only
context in which the model is used. -/

def jsWhitespace (c : Char) : Bool :=
  c == ' ' || c == '\t' || c == '\n' || c == '\r' ||
  c == Char.ofNat 11 || c == Char.ofNat 12 || c == Char.ofNat 0xA0 ||
  c == Char.ofNat 0x2028 || c == Char.ofNat 0x2029 || c == Char.ofNat 0xFEFF

def digitsToNat (ds : List Char) : ℕ :=
  ds.foldl (fun acc c => 10 * acc + (c.toNat - 48)) 0

/-- exponent part after `e`/`E`: optional sign then digits; when no digit
follows, the exponent part is not consumed and contributes factor 1. -/
def parseExponentPart (l : List Char) : ℤ :=
  match l with
  | '+' :: rs => (digitsToNat (rs.takeWhile Char.isDigit) : ℤ)
  | '-' :: rs => -(digitsToNat (rs.takeWhile Char.isDigit) : ℤ)
  | _ => (digitsToNat (l.takeWhile Char.isDigit) : ℤ)

/-- unsigned decimal literal prefix: `Digits [. Digits] [(e|E) [sign] Digits]`,
requiring at least one digit on either side of the dot; trailing
characters are ignored. -/
def parseDecimalBody (l : List Char) : Option ℚ :=
  let intDigits := l.takeWhile Char.isDigit
  let rest1 := l.dropWhile Char.isDigit
  let fracPair : List Char × List Char :=
    match rest1 with
    | '.' :: rs => (rs.takeWhile Char.isDigit, rs.dropWhile Char.isDigit)
    | _ => ([], rest1)
  let fracDigits := fracPair.1
  let rest2 := fracPair.2
  if intDigits = [] ∧ fracDigits = [] then none
  else
    let mantissa : ℚ :=
      (digitsToNat intDigits : ℚ) + (digitsToNat fracDigits : ℚ) / 10 ^ fracDigits.length
    let expVal : ℤ :=
      match rest2 with
      | 'e' :: es => parseExponentPart es
      | 'E' :: es => parseExponentPart es
      | _ => 0
    some (mantissa * 10 ^ expVal)

/-- JavaScript `parseFloat`, modelled over exact rationals: the model
returns the exact value of the decimal literal, where the engine returns
the nearest binary64 double.  The two agree exactly when the literal's
value is representable (`isBinary64Representable`); theorems that depend
on the parsed magnitude carry that hypothesis, while the `none`/`some`
split (NaN versus a finite parse) is faithful unconditionally. -/
def parseFloat (s : String) : Option ℚ :=
  let l := s.toList.dropWhile jsWhitespace
  match l with
  | '+' :: rs => parseDecimalBody rs
  | '-' :: rs => (parseDecimalBody rs).map (fun q => -q)
  | _ => parseDecimalBody l

/-- JavaScript `Math.round` on a finite value: the nearest integer, with a
tie going toward positive infinity. -/
def jsMathRound (q : ℚ) : ℤ := ⌊q + 1 / 2⌋

/-- `Coin.fromInput(inputValue, denomination)`:
`BigInt(Math.round(parseFloat(inputValue) * denomination))`.  A `NaN`
(or infinite) intermediate makes `BigInt` throw, modelled by `none`.
The multiplication is modelled exactly over `ℚ`, where the engine
multiplies binary64 doubles; the two agree exactly when the parsed
value, the denomination and their product are all representable, which
is the hypothesis under which the rounding theorem is stated. -/
def Coin.fromInput (inputValue : String) (denomination : ℚ) : Option ℤ :=
  (parseFloat inputValue).map (fun value => jsMathRound (value * denomination))

/-- rounding to the nearest integer with ties going away from zero; the
rounding rule asserted by the specification for `parseUserInput`. -/
def roundHalfAwayFromZero (q : ℚ) : ℤ :=
  if 0 ≤ q then ⌊q + 1 / 2⌋ else -⌊-q + 1 / 2⌋

/-- the finite binary64 doubles, as exact rationals: `m * 2 ^ e` with
`|m| < 2 ^ 53` and `-1074 ≤ e ≤ 971` (normals and subnormals up to the
largest finite double).  When the parsed decimal value, the denomination
and their product all lie on this grid, the engine's float parse and
float multiply are exact, so the exact-`ℚ` model coincides with the
program. -/
def isBinary64Representable (q : ℚ) : Prop :=
  ∃ m e : ℤ, q = (m : ℚ) * 2 ^ e ∧ m.natAbs < 2 ^ 53 ∧ -1074 ≤ e ∧ e ≤ 971

/-! ### `deduplicate` of the txresults slice -/

/-- the JavaScript idiom `list.filter((value, index, self) =>
self.indexOf(value) === index)`: keeps exactly the first occurrence of
each value, in order.  The same semantics as `[...new Set(list)]`. -/
def jsUniqueFilter {α : Type} [DecidableEq α] (vals : List α) : List α :=
  ((vals.enum).filter (fun p => vals.indexOf p.2 == p.1)).map Prod.snd

/-- `deduplicate(results)`: `results ? results.map(r => r[1]).filter(
(value, index, self) => self.indexOf(value) === index) : []`. -/
def deduplicate : Option (List (ℕ × String)) → List String
  | some results => jsUniqueFilter (results.map Prod.snd)
  | none => []

/-! ### The reconciliation pipeline of `getTransactionsByAddress`

The accessors of `@mysten/sui.js` used by the slice are projections of the
fetched effect record.  Modelled from the spec: `fetchEffectsBatch` returns
records `{digest, sender, kind-specific payload, executionStatus,
errorMessage?, gasUsed, timestampMs?, createdObjectRefs}`; the library
accessors `getTransactions`, `getTransactionKindName`,
`getTransferSuiTransaction`, `getTransferObjectTransaction`,
`getMoveCallTransaction`, `getTransactionDigest`, `getExecutionStatusType`,
`getTotalGasUsed`, `getExecutionStatusError` read those components. -/

structure TransferSuiPayload where
  recipient : String
  amount : Option ℤ
deriving DecidableEq

structure TransferObjectPayload where
  recipient : String
  objectRefObjectId : String
deriving DecidableEq

structure MoveCallPayload where
  function : Option String
deriving DecidableEq

/-- Modelled from the spec: one logical operation of a certified
transaction payload, the closed set of kinds the slice inspects. -/
inductive SingleTransactionKind where
  | transferSui (p : TransferSuiPayload)
  | transferObject (p : TransferObjectPayload)
  | call (p : MoveCallPayload)
  | publish
deriving DecidableEq

/-- Modelled from the spec: `getTransactionKindName`. -/
def getTransactionKindName : SingleTransactionKind → String
  | .transferSui _ => "TransferSui"
  | .transferObject _ => "TransferObject"
  | .call _ => "Call"
  | .publish => "Publish"

/-- Modelled from the spec: `getTransferSuiTransaction`. -/
def getTransferSuiTransaction : SingleTransactionKind → Option TransferSuiPayload
  | .transferSui p => some p
  | _ => none

/-- Modelled from the spec: `getTransferObjectTransaction`. -/
def getTransferObjectTransaction : SingleTransactionKind → Option TransferObjectPayload
  | .transferObject p => some p
  | _ => none

/-- Modelled from the spec: `getMoveCallTransaction`. -/
def getMoveCallTransaction : SingleTransactionKind → Option MoveCallPayload
  | .call p => some p
  | _ => none

/-- Modelled from the spec: the certificate of a fetched effect;
`txDigest` is what `getTransactionDigest(txEff.certificate)` reads,
`transactions` what `getTransactions(res)` reads, `sender` is
`res.data.sender`. -/
structure CertifiedTx where
  txDigest : String
  transactions : List SingleTransactionKind
  sender : String
deriving DecidableEq

/-- `TransactionEffects`: only the `created` object references matter to the
slice; each created reference is modelled by its `reference.objectId`, and
`created` may be absent. -/
structure TransactionEffectsData where
  created : Option (List String)
deriving DecidableEq

/-- Modelled from the spec: one element of the `fetchEffectsBatch`
response, carrying the components the slice reads through the library
accessors. -/
structure TransactionEffectsResp where
  certificate : CertifiedTx
  effects : TransactionEffectsData
  status : String
  totalGasUsed : ℕ
  statusError : Option String
  timestamp_ms : Option ℕ
deriving DecidableEq

/-- `getCreatedObjectID(txEffects)`: `txEffects?.created ?
txEffects?.created.map(item => item.reference)[0]?.objectId : null`. -/
def getCreatedObjectID (txEffects : TransactionEffectsData) : Option String :=
  match txEffects.created with
  | some items => items.head?
  | none => none

/-- the reconciled entry record `TxResultState`.  `fromAddress` models the
source field `from` (a reserved word in Lean); a field the source object
spread may omit is an `Option` that defaults to `none`. -/
structure TxResultState where
  toAddress : Option String := none
  seq : ℕ
  txId : String
  status : String
  txGas : ℕ
  kind : Option String
  fromAddress : String
  amount : Option ℤ := none
  timestampMs : Option ℕ := none
  url : Option String := none
  objectId : Option String := none
  description : Option String := none
  name : Option String := none
  isSender : Bool
  error : Option String := none
  balance : Option ℤ := none
  callFunctionName : String
  coinSymbol : Option String := none
deriving DecidableEq

/-- a thrown exception inside the effect-mapping stage, which rejects the
whole thunk. -/
inductive PipelineError where
  | orphanedEffect
  | missingTransaction
deriving DecidableEq

/-- the body of the `txEffs.map(...)` callback for one fetched effect.
`orphanedEffect`: destructuring `const [seq, digest]` of `undefined` (no
correlating reference) throws.  `missingTransaction`:
`getTransactionKindName(undefined)` (empty payload) throws.  A multi
operation payload returns `null`, which `filter(notEmpty)` later drops. -/
def processEffect (address : String) (transactions : List (ℕ × String))
    (txEff : TransactionEffectsResp) : Except PipelineError (Option TxResultState) :=
  match (transactions.filter (fun t => t.2 == txEff.certificate.txDigest)).head? with
  | none => .error .orphanedEffect
  | some (seq, digest) =>
    let txns := txEff.certificate.transactions
    if txns.length > 1 then .ok none
    else
      match txns.head? with
      | none => .error .missingTransaction
      | some txn =>
        let txKind := getTransactionKindName txn
        let transferSui := getTransferSuiTransaction txn
        let txTransferObject := getTransferObjectTransaction txn
        let recipient : Option String :=
          match transferSui with
          | some p => some p.recipient
          | none => txTransferObject.map (fun p => p.recipient)
        let moveCallTxn := getMoveCallTransaction txn
        let callObjectId := getCreatedObjectID txEff.effects
        let objectIdField : Option String :=
          match txTransferObject with
          | some p => some p.objectRefObjectId
          | none =>
            match callObjectId with
            | some c => if c = "" then none else some c
            | none => none
        let amountField : Option ℤ :=
          match transferSui with
          | some p =>
            match p.amount with
            | some a => if a = 0 then none else some a
            | none => none
          | none => none
        let toField : Option String :=
          match recipient with
          | some r => if r = "" then none else some r
          | none => none
        .ok (some
          { seq := seq
            txId := digest
            status := txEff.status
            txGas := txEff.totalGasUsed
            kind := some txKind
            callFunctionName := "Call (" ++
              (match moveCallTxn with
               | some p =>
                 match p.function with
                 | some f => f.replace "_" " "
                 | none => "undefined"
               | none => "undefined") ++ ")"
            fromAddress := txEff.certificate.sender
            objectId := objectIdField
            error := txEff.statusError
            timestampMs := txEff.timestamp_ms
            isSender := txEff.certificate.sender == address
            amount := amountField
            toAddress := toField })

/-- the `txEffs.map(...)` traversal: the first thrown exception rejects the
whole batch, otherwise the per-effect results are collected in order. -/
def processEffects (address : String) (transactions : List (ℕ × String)) :
    List TransactionEffectsResp → Except PipelineError (List (Option TxResultState))
  | [] => .ok []
  | e :: es =>
    match processEffect address transactions e with
    | .error err => .error err
    | .ok o =>
      match processEffects address transactions es with
      | .error err => .error err
      | .ok os => .ok (o :: os)

/-- the comparator `(a, b) => b.seq - a.seq`: keep `a` before `b` exactly
when the comparator is non-positive. -/
def bySeqDesc (a b : TxResultState) : Bool := b.seq ≤ a.seq

/-- `.filter(notEmpty).sort((a, b) => b.seq - a.seq)` applied to the mapped
batch: `Array.prototype.sort` is a stable sort by the comparator, modelled
by `List.mergeSort`. -/
def reconcileEffects (address : String) (transactions : List (ℕ × String))
    (txEffs : List TransactionEffectsResp) : Except PipelineError (List TxResultState) :=
  match processEffects address transactions txEffs with
  | .error err => .error err
  | .ok opts => .ok ((opts.filterMap id).mergeSort bySeqDesc)

/-! ### The object enrichment stage -/

/-- Modelled from the spec: the object data of one element of the
`batchFetchObject` payload (`obj.data.type`, `obj.data.fields`). -/
structure SuiObjectData where
  type : Option String
  description : Option String
  name : Option String
  url : Option String
  balance : Option ℤ
deriving DecidableEq

/-- Modelled from the spec: one element of the `batchFetchObject` payload;
`referenceObjectId` is `obj.reference.objectId`. -/
structure TxObject where
  referenceObjectId : String
  data : SuiObjectData
deriving DecidableEq

/-- `objectTxObj?.data?.type && Coin.getCoinTypeArg(objectTxObj.data)`:
a missing or empty type string is falsy and short-circuits. -/
def objectCoinType (obj : TxObject) : Option String :=
  match obj.data.type with
  | none => none
  | some t => if t = "" then none else Coin.getCoinTypeArg t

/-- the guarded lookup
`txObjects && itm?.objectId && Array.isArray(txObjects) ?
txObjects.find(obj => obj.reference.objectId === itm.objectId) : null`;
a non-array payload is `none`, an absent or empty (falsy) `objectId`
skips the lookup. -/
def enrichmentMatch (txObjects : Option (List TxObject)) (itm : TxResultState) :
    Option TxObject :=
  match txObjects, itm.objectId with
  | some objs, some oid =>
    if oid = "" then none
    else objs.find? (fun obj => obj.referenceObjectId == oid)
  | _, _ => none

/-- the body of the `resp.map(...)` enrichment callback: spread the entry,
and when an object matched, overwrite exactly the five enrichment fields;
`coinSymbol` is `coinType && Coin.getCoinSymbol(coinType)`. -/
def enrichEntry (txObjects : Option (List TxObject)) (itm : TxResultState) :
    TxResultState :=
  match enrichmentMatch txObjects itm with
  | none => itm
  | some obj =>
    { itm with
      description := obj.data.description
      name := obj.data.name
      url := obj.data.url
      balance := obj.data.balance
      coinSymbol := (objectCoinType obj).map Coin.getCoinSymbol }

/-- the enrichment stage `txnResp = resp.map(itm => ...)`. -/
def enrich (txObjects : Option (List TxObject)) (resp : List TxResultState) :
    List TxResultState :=
  resp.map (enrichEntry txObjects)

/-! ### The `txresult` slice reducer -/

/-- the structured error descriptor `{ code, message, name }` destructured
from a rejected action. -/
structure ErrorInfo where
  code : Option String
  message : Option String
  name : Option String
deriving DecidableEq

/-- `TransactionManualState`.  The source `error` field is
`false | { code?, message?, name? }`, modelled by an `Option`. -/
structure TransactionManualState where
  loading : Bool
  error : Option ErrorInfo
  latestTx : List TxResultState
  recentAddresses : List String
deriving DecidableEq

def initialState : TransactionManualState :=
  { loading := true, latestTx := [], recentAddresses := [], error := none }

/-- the three actions of `getTransactionsByAddress` handled by
`extraReducers`. -/
inductive TxAction where
  | fulfilled (payload : List TxResultState)
  | pending
  | rejected (error : ErrorInfo)

/-- the fulfilled handler's recent-address derivation:
`[...new Set(payload.map(tx => [tx?.to, tx.from]).flat().filter(itm => itm))]`,
dropping the falsy values (absent `to` and empty strings). -/
def recentAddressesOf (payload : List TxResultState) : List String :=
  let pairs := payload.map (fun tx => [tx.toAddress, some tx.fromAddress])
  jsUniqueFilter ((pairs.flatten.filterMap id).filter (fun itm => itm != ""))

/-- the `txSlice.extraReducers` cases.  `pending` sets `loading` and clears
`latestTx` and `recentAddresses` but leaves `error` untouched. -/
def txReducer (state : TransactionManualState) : TxAction → TransactionManualState
  | .fulfilled payload =>
      { state with
        loading := false
        error := none
        latestTx := payload
        recentAddresses := recentAddressesOf payload }
  | .pending =>
      { state with loading := true, latestTx := [], recentAddresses := [] }
  | .rejected e =>
      { state with
        loading := false
        error := some e
        latestTx := []
        recentAddresses := [] }

/-- the states reachable by dispatching a sequence of actions against the
slice's initial state. -/
def runActions (acts : List TxAction) : TransactionManualState :=
  acts.foldl txReducer initialState

/-- a concrete single-operation fetched effect, used to instantiate the
reconciliation theorems on a concrete input. -/
def sampleEffect : TransactionEffectsResp :=
  { certificate :=
      { txDigest := "d1"
        transactions := [SingleTransactionKind.transferSui { recipient := "r", amount := some 5 }]
        sender := "s" }
    effects := { created := none }
    status := "success"
    totalGasUsed := 10
    statusError := none
    timestamp_ms := none }

/-- the entry the classification stage produces for `sampleEffect` against
the reference list `[(1, "d1")]` and queried address `"addr"`. -/
def sampleEntry : TxResultState :=
  { seq := 1
    txId := "d1"
    status := "success"
    txGas := 10
    kind := some "TransferSui"
    fromAddress := "s"
    isSender := false
    callFunctionName := "Call (undefined)"
    amount := some 5
    toAddress := some "r" }

/-- a concrete effect whose certified payload holds two logical
operations. -/
def sampleMultiOpEffect : TransactionEffectsResp :=
  { certificate :=
      { txDigest := "d2"
        transactions := [SingleTransactionKind.publish, SingleTransactionKind.publish]
        sender := "s" }
    effects := { created := none }
    status := "success"
    totalGasUsed := 7
    statusError := none
    timestamp_ms := none }

/-! ### Theorems -/

theorem jsUniqueFilter_sublist {α : Type} [DecidableEq α] (vals : List α) :
    List.Sublist (jsUniqueFilter vals) vals := by
  have h1 : List.Sublist (vals.enum.filter (fun p => vals.indexOf p.2 == p.1)) vals.enum :=
    List.filter_sublist _
  have h2 := h1.map Prod.snd
  rwa [List.enum_map_snd] at h2

theorem jsUniqueFilter_pairwise {α : Type} [DecidableEq α] (vals : List α) :
    (jsUniqueFilter vals).Pairwise (fun a b => vals.indexOf a < vals.indexOf b) := by
  have henum : (vals.enum).Pairwise (fun p q => p.1 < q.1) := by
    have h := List.pairwise_lt_range vals.length
    rw [← List.enum_map_fst vals] at h
    exact (List.pairwise_map).1 h
  have hfilt := henum.filter (fun p => vals.indexOf p.2 == p.1)
  have hfilt' : (vals.enum.filter (fun p => vals.indexOf p.2 == p.1)).Pairwise
      (fun p q => vals.indexOf p.2 < vals.indexOf q.2) := by
    refine hfilt.imp_of_mem ?_
    intro p q hp hq hlt
    have hp2 : vals.indexOf p.2 = p.1 := by
      simpa using (List.mem_filter.1 hp).2
    have hq2 : vals.indexOf q.2 = q.1 := by
      simpa using (List.mem_filter.1 hq).2
    rw [hp2, hq2]
    exact hlt
  exact (List.pairwise_map).2 hfilt'

theorem jsUniqueFilter_nodup {α : Type} [DecidableEq α] (vals : List α) :
    (jsUniqueFilter vals).Nodup := by
  refine (jsUniqueFilter_pairwise vals).imp ?_
  intro a b h heq
  rw [heq] at h
  exact lt_irrefl _ h

theorem jsUniqueFilter_mem_iff {α : Type} [DecidableEq α] (vals : List α) (v : α) :
    v ∈ jsUniqueFilter vals ↔ v ∈ vals := by
  constructor
  · intro h
    exact (jsUniqueFilter_sublist vals).subset h
  · intro h
    refine List.mem_map.2 ⟨(vals.indexOf v, v), List.mem_filter.2 ⟨?_, by simp⟩, rfl⟩
    exact List.mk_mem_enum_iff_getElem?.2 (by simpa using List.getElem?_indexOf h)

/-- C5: for every input reference list, `deduplicate` outputs each digest
at most once (`Nodup`), as a subsequence of the input digests whose
elements are ordered by their first occurrence in the input, containing
every input digest, with output length at most the input length; the
absent-input case yields the empty list. -/
theorem deduplicate_first_occurrence_unique (results : List (ℕ × String)) :
    (deduplicate (some results)).Nodup ∧
    (deduplicate (some results)).length ≤ results.length ∧
    List.Sublist (deduplicate (some results)) (results.map Prod.snd) ∧
    (∀ d, d ∈ deduplicate (some results) ↔ d ∈ results.map Prod.snd) ∧
    (deduplicate (some results)).Pairwise
      (fun a b => (results.map Prod.snd).indexOf a < (results.map Prod.snd).indexOf b) ∧
    deduplicate none = [] := by
  have hsub := jsUniqueFilter_sublist (results.map Prod.snd)
  refine ⟨jsUniqueFilter_nodup _, ?_, hsub, fun d => jsUniqueFilter_mem_iff _ d,
    jsUniqueFilter_pairwise _, rfl⟩
  have hlen := hsub.length_le
  simpa using hlen

/-- C1 (amended): at every state reachable from the slice's initial state,
a populated entry list implies `loading = false` and no error, and a
populated error implies empty entries and recent addresses; the `pending`
transition clears entries and recent addresses and sets `loading`, but
leaves any previous error in place, so a stale error can coexist with
`loading = true`. -/
theorem ledgerState_phase_invariant_amended :
    (∀ acts : List TxAction,
      ((runActions acts).latestTx ≠ [] →
        (runActions acts).loading = false ∧ (runActions acts).error = none) ∧
      ((runActions acts).error ≠ none →
        (runActions acts).latestTx = [] ∧ (runActions acts).recentAddresses = [])) ∧
    (∀ s : TransactionManualState,
      (txReducer s TxAction.pending).loading = true ∧
      (txReducer s TxAction.pending).latestTx = [] ∧
      (txReducer s TxAction.pending).recentAddresses = [] ∧
      (txReducer s TxAction.pending).error = s.error) := by
  constructor
  · have key : ∀ (acts : List TxAction) (s : TransactionManualState),
        ((s.latestTx ≠ [] → s.loading = false ∧ s.error = none) ∧
         (s.error ≠ none → s.latestTx = [] ∧ s.recentAddresses = [])) →
        (((acts.foldl txReducer s).latestTx ≠ [] →
            (acts.foldl txReducer s).loading = false ∧ (acts.foldl txReducer s).error = none) ∧
         ((acts.foldl txReducer s).error ≠ none →
            (acts.foldl txReducer s).latestTx = [] ∧
            (acts.foldl txReducer s).recentAddresses = [])) := by
      intro acts
      induction acts with
      | nil => intro s hs; exact hs
      | cons a rest ih =>
        intro s hs
        refine ih (txReducer s a) ?_
        cases a with
        | fulfilled payload => exact ⟨fun _ => ⟨rfl, rfl⟩, fun h => absurd rfl h⟩
        | pending => exact ⟨fun h => absurd rfl h, fun _ => ⟨rfl, rfl⟩⟩
        | rejected e => exact ⟨fun h => absurd rfl h, fun _ => ⟨rfl, rfl⟩⟩
    intro acts
    exact key acts initialState ⟨fun h => absurd rfl h, fun h => absurd rfl h⟩
  · intro s
    exact ⟨rfl, rfl, rfl, rfl⟩

/-- C1 (witness): the invariant applied along a concrete fulfilled-then-
pending dispatch sequence, and the pending frame at a concrete state. -/
theorem ledgerState_phase_invariant_witness :
    (runActions [TxAction.rejected { code := none, message := none, name := none }]).latestTx = [] ∧
    (runActions [TxAction.rejected { code := none, message := none, name := none }]).recentAddresses = [] :=
  (ledgerState_phase_invariant_amended.1
    [TxAction.rejected { code := none, message := none, name := none }]).2 (by decide)

/-- C1 (counterexample): after a rejected cycle, dispatching `pending`
reaches a state with `loading = true` and the stale error still populated,
refuting the claimed mutual exclusion of the loading phase and the error
phase at reachable observation points. -/
theorem ledgerState_stale_error_on_pending :
    (runActions [TxAction.rejected
        { code := some "NET", message := some "boom", name := some "Error" },
      TxAction.pending]).loading = true ∧
    (runActions [TxAction.rejected
        { code := some "NET", message := some "boom", name := some "Error" },
      TxAction.pending]).error =
      some { code := some "NET", message := some "boom", name := some "Error" } :=
  ⟨rfl, rfl⟩

theorem enrichmentMatch_eq_some (txObjects : Option (List TxObject))
    (itm : TxResultState) (obj : TxObject)
    (h : enrichmentMatch txObjects itm = some obj) :
    ∃ objs oid, txObjects = some objs ∧ itm.objectId = some oid ∧ oid ≠ "" ∧
      objs.find? (fun o => o.referenceObjectId == oid) = some obj := by
  unfold enrichmentMatch at h
  rcases txObjects with _ | objs
  · exact absurd h (by simp)
  · rcases hoid : itm.objectId with _ | oid
    · rw [hoid] at h
      exact absurd h (by simp)
    · rw [hoid] at h
      by_cases he : oid = ""
      · simp [he] at h
      · rw [show (match some objs, some oid with
          | some objs, some oid =>
            if oid = "" then none
            else List.find? (fun obj => obj.referenceObjectId == oid) objs
          | _, _ => (none : Option TxObject)) =
            (if oid = "" then none
             else List.find? (fun obj => obj.referenceObjectId == oid) objs) from rfl,
          if_neg he] at h
        exact ⟨objs, oid, rfl, rfl, he, h⟩

theorem enrichEntry_frame (txObjects : Option (List TxObject)) (itm : TxResultState) :
    (enrichEntry txObjects itm).seq = itm.seq ∧
    (enrichEntry txObjects itm).txId = itm.txId ∧
    (enrichEntry txObjects itm).status = itm.status ∧
    (enrichEntry txObjects itm).txGas = itm.txGas ∧
    (enrichEntry txObjects itm).kind = itm.kind ∧
    (enrichEntry txObjects itm).fromAddress = itm.fromAddress ∧
    (enrichEntry txObjects itm).amount = itm.amount ∧
    (enrichEntry txObjects itm).timestampMs = itm.timestampMs ∧
    (enrichEntry txObjects itm).objectId = itm.objectId ∧
    (enrichEntry txObjects itm).isSender = itm.isSender ∧
    (enrichEntry txObjects itm).error = itm.error ∧
    (enrichEntry txObjects itm).callFunctionName = itm.callFunctionName ∧
    (enrichEntry txObjects itm).toAddress = itm.toAddress ∧
    (itm.objectId = none → enrichEntry txObjects itm = itm) ∧
    (∀ oid objs, itm.objectId = some oid → txObjects = some objs →
      objs.find? (fun o => o.referenceObjectId == oid) = none →
      enrichEntry txObjects itm = itm) ∧
    (enrichmentMatch txObjects itm = none → enrichEntry txObjects itm = itm) := by
  cases h : enrichmentMatch txObjects itm with
  | none =>
    have e : enrichEntry txObjects itm = itm := by
      unfold enrichEntry
      rw [h]
    rw [e]
    simp
  | some obj =>
    have e : enrichEntry txObjects itm =
        { itm with
          description := obj.data.description
          name := obj.data.name
          url := obj.data.url
          balance := obj.data.balance
          coinSymbol := (objectCoinType obj).map Coin.getCoinSymbol } := by
      unfold enrichEntry
      rw [h]
    obtain ⟨objs', oid', htx', hoid', hne', hfind'⟩ := enrichmentMatch_eq_some _ _ _ h
    rw [e]
    refine ⟨rfl, rfl, rfl, rfl, rfl, rfl, rfl, rfl, rfl, rfl, rfl, rfl, rfl, ?_, ?_, ?_⟩
    · intro hnone
      rw [hnone] at hoid'
      exact absurd hoid' (by simp)
    · intro oid objs hoid htx hfind
      rw [hoid] at hoid'
      rw [htx] at htx'
      injection hoid' with e2
      injection htx' with e1
      subst e1
      subst e2
      rw [hfind] at hfind'
      exact absurd hfind' (by simp)
    · intro hnone
      exact Option.noConfusion hnone

/-- C8: the enrichment stage maps each input entry to exactly one output
entry (never removing any); entries whose `objectId` is absent, or whose
lookup in the batch-fetch response finds no match, are returned unchanged;
and for every entry only the enrichment fields `description`, `name`,
`url`, `balance`, `coinSymbol` can change — all other fields are preserved
verbatim. -/
theorem enrich_frame_preserving (txObjects : Option (List TxObject))
    (resp : List TxResultState) :
    (enrich txObjects resp).length = resp.length ∧
    List.Forall₂ (fun itm out =>
      out.seq = itm.seq ∧ out.txId = itm.txId ∧ out.status = itm.status ∧
      out.txGas = itm.txGas ∧ out.kind = itm.kind ∧
      out.fromAddress = itm.fromAddress ∧ out.amount = itm.amount ∧
      out.timestampMs = itm.timestampMs ∧ out.objectId = itm.objectId ∧
      out.isSender = itm.isSender ∧ out.error = itm.error ∧
      out.callFunctionName = itm.callFunctionName ∧
      out.toAddress = itm.toAddress ∧
      (itm.objectId = none → out = itm) ∧
      (∀ oid objs, itm.objectId = some oid → txObjects = some objs →
        objs.find? (fun o => o.referenceObjectId == oid) = none → out = itm) ∧
      (enrichmentMatch txObjects itm = none → out = itm))
      resp (enrich txObjects resp) := by
  constructor
  · simp [enrich]
  · rw [enrich, List.forall₂_map_right_iff]
    exact List.forall₂_same.2 (fun itm _ => enrichEntry_frame txObjects itm)

theorem correlation_of_head? {transactions : List (ℕ × String)} {d : String}
    {seq : ℕ} {digest : String}
    (h : (transactions.filter (fun t => t.2 == d)).head? = some (seq, digest)) :
    (seq, digest) ∈ transactions ∧ digest = d := by
  rcases List.head?_eq_some_iff.1 h with ⟨ys, hys⟩
  have hmem : (seq, digest) ∈ transactions.filter (fun t => t.2 == d) := by
    rw [hys]
    exact List.mem_cons_self _ _
  have hp := List.mem_filter.1 hmem
  exact ⟨hp.1, by simpa using hp.2⟩

theorem processEffect_ok_some {address : String} {transactions : List (ℕ × String)}
    {txEff : TransactionEffectsResp} {entry : TxResultState}
    (h : processEffect address transactions txEff = .ok (some entry)) :
    entry.txId = txEff.certificate.txDigest ∧ (entry.seq, entry.txId) ∈ transactions := by
  unfold processEffect at h
  cases hf : (transactions.filter (fun t => t.2 == txEff.certificate.txDigest)).head? with
  | none =>
    rw [hf] at h
    exact absurd h (by simp)
  | some p =>
    rw [hf] at h
    obtain ⟨seq, digest⟩ := p
    obtain ⟨hmem, hdig⟩ := correlation_of_head? hf
    by_cases hlen : txEff.certificate.transactions.length > 1
    · simp [hlen] at h
    · cases ht : txEff.certificate.transactions.head? with
      | none => simp [hlen, ht] at h
      | some txn =>
        simp only [hlen, ht] at h
        simp at h
        rw [← h]
        exact ⟨hdig, by simpa [hdig] using hmem⟩

theorem processEffect_multiOp {address : String} {transactions : List (ℕ × String)}
    {txEff : TransactionEffectsResp}
    (hc : (transactions.filter (fun t => t.2 == txEff.certificate.txDigest)).head? ≠ none)
    (hlen : txEff.certificate.transactions.length > 1) :
    processEffect address transactions txEff = .ok none := by
  unfold processEffect
  cases hf : (transactions.filter (fun t => t.2 == txEff.certificate.txDigest)).head? with
  | none => exact absurd hf hc
  | some p =>
    obtain ⟨seq, digest⟩ := p
    simp [hlen]

theorem processEffect_error_cases {address : String} {transactions : List (ℕ × String)}
    {txEff : TransactionEffectsResp} {err : PipelineError}
    (h : processEffect address transactions txEff = .error err) :
    (transactions.filter (fun t => t.2 == txEff.certificate.txDigest)).head? = none ∨
      txEff.certificate.transactions = [] := by
  unfold processEffect at h
  cases hf : (transactions.filter (fun t => t.2 == txEff.certificate.txDigest)).head? with
  | none => exact Or.inl rfl
  | some p =>
    rw [hf] at h
    obtain ⟨seq, digest⟩ := p
    by_cases hlen : txEff.certificate.transactions.length > 1
    · simp [hlen] at h
    · cases ht : txEff.certificate.transactions.head? with
      | none => exact Or.inr (List.head?_eq_none_iff.1 ht)
      | some txn => simp [hlen, ht] at h

theorem processEffect_isOk {address : String} {transactions : List (ℕ × String)}
    {txEff : TransactionEffectsResp}
    (hc : (transactions.filter (fun t => t.2 == txEff.certificate.txDigest)).head? ≠ none)
    (hne : txEff.certificate.transactions ≠ []) :
    ∃ o, processEffect address transactions txEff = .ok o := by
  cases hres : processEffect address transactions txEff with
  | ok o => exact ⟨o, rfl⟩
  | error err =>
    rcases processEffect_error_cases hres with h | h
    · exact absurd h hc
    · exact absurd h hne

theorem processEffects_ok_forall₂ {address : String} {transactions : List (ℕ × String)} :
    ∀ {txEffs : List TransactionEffectsResp} {opts : List (Option TxResultState)},
    processEffects address transactions txEffs = .ok opts →
    List.Forall₂ (fun e o => processEffect address transactions e = .ok o) txEffs opts := by
  intro txEffs
  induction txEffs with
  | nil =>
    intro opts h
    unfold processEffects at h
    simp at h
    rw [h]
    exact List.Forall₂.nil
  | cons e es ih =>
    intro opts h
    unfold processEffects at h
    cases hp : processEffect address transactions e with
    | error err => simp [hp] at h
    | ok o =>
      cases hr : processEffects address transactions es with
      | error err => simp [hp, hr] at h
      | ok os =>
        simp [hp, hr] at h
        rw [← h]
        exact List.Forall₂.cons hp (ih hr)

theorem processEffects_ok_of {address : String} {transactions : List (ℕ × String)} :
    ∀ es : List TransactionEffectsResp,
    (∀ e ∈ es, ∃ o, processEffect address transactions e = .ok o) →
    ∃ os, processEffects address transactions es = .ok os := by
  intro es
  induction es with
  | nil => exact fun _ => ⟨[], rfl⟩
  | cons e es ih =>
    intro h
    obtain ⟨o, ho⟩ := h e (List.mem_cons_self _ _)
    obtain ⟨os, hos⟩ := ih (fun e' he' => h e' (List.mem_cons_of_mem _ he'))
    exact ⟨o :: os, by unfold processEffects; simp [ho, hos]⟩

theorem mem_filterMap_of_forall₂ {address : String} {transactions : List (ℕ × String)}
    {txEffs : List TransactionEffectsResp} {opts : List (Option TxResultState)}
    (hf : List.Forall₂ (fun e o => processEffect address transactions e = .ok o) txEffs opts)
    {x : TxResultState} (hx : x ∈ opts.filterMap id) :
    ∃ e ∈ txEffs, processEffect address transactions e = .ok (some x) := by
  induction hf with
  | nil => simp at hx
  | @cons e o es os h1 _ ih =>
    cases o with
    | none =>
      rw [List.filterMap_cons_none rfl] at hx
      obtain ⟨e', he', hpe⟩ := ih hx
      exact ⟨e', List.mem_cons_of_mem _ he', hpe⟩
    | some y =>
      replace hx : x ∈ y :: os.filterMap id := hx
      rcases List.mem_cons.1 hx with hxy | hx'
      · exact ⟨e, List.mem_cons_self _ _, by rw [← hxy] at h1; exact h1⟩
      · obtain ⟨e', he', hpe⟩ := ih hx'
        exact ⟨e', List.mem_cons_of_mem _ he', hpe⟩

theorem nodup_txId_of_forall₂ {address : String} {transactions : List (ℕ × String)}
    {txEffs : List TransactionEffectsResp} {opts : List (Option TxResultState)}
    (hf : List.Forall₂ (fun e o => processEffect address transactions e = .ok o) txEffs opts)
    (hdig : (txEffs.map (fun e => e.certificate.txDigest)).Nodup) :
    ((opts.filterMap id).map TxResultState.txId).Nodup := by
  induction hf with
  | nil => simp
  | @cons e o es os h1 h2 ih =>
    rw [List.map_cons, List.nodup_cons] at hdig
    cases o with
    | none =>
      rw [List.filterMap_cons_none rfl]
      exact ih hdig.2
    | some y =>
      show (List.map TxResultState.txId (y :: os.filterMap id)).Nodup
      rw [List.map_cons, List.nodup_cons]
      refine ⟨?_, ih hdig.2⟩
      intro hmem
      rcases List.mem_map.1 hmem with ⟨x, hx, htx⟩
      obtain ⟨e', he', hpe⟩ := mem_filterMap_of_forall₂ h2 hx
      have h1' := (processEffect_ok_some h1).1
      have h2' := (processEffect_ok_some hpe).1
      refine hdig.1 ?_
      rw [← h1', ← htx, h2']
      exact List.mem_map.2 ⟨e', he', rfl⟩

/-- C6: under the precondition that sequence numbers are unique per
account (and that the batched effects response carries pairwise-distinct
digests, as requested), a successfully reconciled and enriched entry list
is sorted strictly descending by `seq` and contains no two entries with
the same digest. -/
theorem reconciled_entries_sorted_nodup
    (address : String) (transactions : List (ℕ × String))
    (txEffs : List TransactionEffectsResp) (txObjects : Option (List TxObject))
    (l : List TxResultState)
    (hseq : (transactions.map Prod.fst).Nodup)
    (hdig : (txEffs.map (fun e => e.certificate.txDigest)).Nodup)
    (hok : reconcileEffects address transactions txEffs = .ok l) :
    (enrich txObjects l).Pairwise (fun a b => b.seq < a.seq) ∧
    ((enrich txObjects l).map TxResultState.txId).Nodup := by
  unfold reconcileEffects at hok
  cases hp : processEffects address transactions txEffs with
  | error err =>
    rw [hp] at hok
    exact absurd hok (by simp)
  | ok opts =>
    rw [hp] at hok
    replace hok : Except.ok ((opts.filterMap id).mergeSort bySeqDesc) = Except.ok l := hok
    have hl := Except.ok.inj hok
    subst hl
    have hf := processEffects_ok_forall₂ hp
    have hnd_ent : ((opts.filterMap id).map TxResultState.txId).Nodup :=
      nodup_txId_of_forall₂ hf hdig
    have hperm := List.mergeSort_perm (opts.filterMap id) bySeqDesc
    have hnd_sorted :
        (((opts.filterMap id).mergeSort bySeqDesc).map TxResultState.txId).Nodup :=
      ((hperm.map TxResultState.txId).nodup_iff).2 hnd_ent
    have hsorted : ((opts.filterMap id).mergeSort bySeqDesc).Pairwise
        (fun a b => bySeqDesc a b = true) :=
      List.sorted_mergeSort
        (fun a b c hab hbc => by
          simp only [bySeqDesc, decide_eq_true_eq] at hab hbc ⊢
          omega)
        (fun a b => by
          simp only [bySeqDesc, Bool.or_eq_true, decide_eq_true_eq]
          omega)
        (opts.filterMap id)
    have hmem : ∀ x ∈ (opts.filterMap id).mergeSort bySeqDesc,
        (x.seq, x.txId) ∈ transactions := by
      intro x hx
      rw [List.mem_mergeSort] at hx
      obtain ⟨e, _, hpe⟩ := mem_filterMap_of_forall₂ hf hx
      exact (processEffect_ok_some hpe).2
    have hneq : ((opts.filterMap id).mergeSort bySeqDesc).Pairwise
        (fun a b => a.txId ≠ b.txId) :=
      List.pairwise_map.1 hnd_sorted
    have hstrict : ((opts.filterMap id).mergeSort bySeqDesc).Pairwise
        (fun a b => b.seq < a.seq) := by
      refine (hsorted.and hneq).imp_of_mem ?_
      intro a b ha hb hab
      have hle : b.seq ≤ a.seq := by
        have h1 := hab.1
        simpa [bySeqDesc] using h1
      rcases Nat.lt_or_ge b.seq a.seq with hlt | hge
      · exact hlt
      · exfalso
        have heq : b.seq = a.seq := Nat.le_antisymm hle hge
        have hpair := List.inj_on_of_nodup_map hseq (hmem a ha) (hmem b hb)
          (by simp [heq])
        exact hab.2 (congrArg Prod.snd hpair)
    constructor
    · unfold enrich
      refine List.pairwise_map.2 (hstrict.imp ?_)
      intro a b h
      rw [(enrichEntry_frame txObjects a).1, (enrichEntry_frame txObjects b).1]
      exact h
    · unfold enrich
      rw [List.map_map]
      have hcomp : List.map (TxResultState.txId ∘ enrichEntry txObjects)
          ((List.filterMap id opts).mergeSort bySeqDesc) =
          List.map TxResultState.txId ((List.filterMap id opts).mergeSort bySeqDesc) :=
        List.map_congr_left (fun x _ => (enrichEntry_frame txObjects x).2.1)
      rw [hcomp]
      exact hnd_sorted

/-- C7: a fetched effect whose certified payload contains more than one
logical operation contributes no entry with its digest to the result and
does not fail the cycle: provided every effect correlates to a reference
and carries a non-empty payload, the whole batch still reconciles to
`.ok`. -/
theorem multiOp_effect_dropped_no_failure
    (address : String) (transactions : List (ℕ × String))
    (txEffs : List TransactionEffectsResp) (e : TransactionEffectsResp)
    (he : e ∈ txEffs)
    (hmulti : e.certificate.transactions.length > 1)
    (hdig : (txEffs.map (fun x => x.certificate.txDigest)).Nodup)
    (hcorr : ∀ x ∈ txEffs,
      (transactions.filter (fun t => t.2 == x.certificate.txDigest)).head? ≠ none)
    (hne : ∀ x ∈ txEffs, x.certificate.transactions ≠ []) :
    ∃ l, reconcileEffects address transactions txEffs = .ok l ∧
      ∀ entry ∈ l, entry.txId ≠ e.certificate.txDigest := by
  obtain ⟨os, hos⟩ := processEffects_ok_of txEffs
    (fun x hx => processEffect_isOk (hcorr x hx) (hne x hx))
  refine ⟨(os.filterMap id).mergeSort bySeqDesc, ?_, ?_⟩
  · unfold reconcileEffects
    rw [hos]
  · intro entry hentry hcontra
    rw [List.mem_mergeSort] at hentry
    obtain ⟨e', he', hpe⟩ := mem_filterMap_of_forall₂ (processEffects_ok_forall₂ hos) hentry
    have htxid := (processEffect_ok_some hpe).1
    have hee : e' = e := List.inj_on_of_nodup_map hdig he' he (by rw [← htxid, hcontra])
    rw [hee] at hpe
    have hnone := @processEffect_multiOp address transactions e (hcorr e he) hmulti
    rw [hpe] at hnone
    exact Option.noConfusion (Except.ok.inj hnone)

/-- C9: in Accurate mode, for every balance and coin type,
`Coin.getFormatData` sets the maximum fractional digits to 20 and never
selects compact rendering. -/
theorem getFormatData_accurate_digits (balance : ℤ) (coinArgType : String) :
    (Coin.getFormatData balance coinArgType FormatMode.accurate).formatOptions.maximumFractionDigits
        = some 20 ∧
    (Coin.getFormatData balance coinArgType FormatMode.accurate).formatOptions.fmtStyle = none :=
  ⟨rfl, rfl⟩

/-- C2 (amended): in Loose mode, for every balance `B` and the denomination
`D` resolved for the coin type, `B < D` gives maximum fractional digits 8,
otherwise 3 with compact rendering; and whenever the computed decimal value
`B / D` is below `1e-8` the forced placeholder `"- -"` is returned. -/
theorem getFormatData_loose_spec (balance : ℤ) (coinArgType : String) :
    ((balance : ℚ) < (COIN_DENOMINATIONS coinArgType).getD 1 →
      (Coin.getFormatData balance coinArgType FormatMode.loose).formatOptions.maximumFractionDigits
        = some 8) ∧
    (¬ (balance : ℚ) < (COIN_DENOMINATIONS coinArgType).getD 1 →
      (Coin.getFormatData balance coinArgType FormatMode.loose).formatOptions.maximumFractionDigits
          = some 3 ∧
      (Coin.getFormatData balance coinArgType FormatMode.loose).formatOptions.fmtStyle
          = some NumStyle.compact) ∧
    ((balance : ℚ) / (COIN_DENOMINATIONS coinArgType).getD 1 < 1 / 10 ^ 8 →
      (Coin.getFormatData balance coinArgType FormatMode.loose).forcedFormatValue = some "- -") := by
  refine ⟨fun h => ?_, fun h => ?_, fun h => ?_⟩
  · simp [Coin.getFormatData, h]
  · simp [Coin.getFormatData, h]
  · have h' : (balance : ℚ) / (COIN_DENOMINATIONS coinArgType).getD 1 < (10 ^ 8)⁻¹ := by
      rw [← one_div]
      exact h
    simp [Coin.getFormatData, h']

/-- C2 (witness): at balance 0 of the native coin the sub-unit branch and
the placeholder branch both fire. -/
theorem getFormatData_loose_spec_witness :
    (Coin.getFormatData 0 "0x2::sui::SUI" FormatMode.loose).formatOptions.maximumFractionDigits
        = some 8 ∧
    (Coin.getFormatData 0 "0x2::sui::SUI" FormatMode.loose).forcedFormatValue = some "- -" :=
  ⟨(getFormatData_loose_spec 0 "0x2::sui::SUI").1 (by norm_num [COIN_DENOMINATIONS]),
   (getFormatData_loose_spec 0 "0x2::sui::SUI").2.2 (by norm_num [COIN_DENOMINATIONS])⟩

/-- C2 (counterexample): the placeholder the code returns is the ASCII
string `"- -"`, not the en-dash string the claim asserts. -/
theorem getFormatData_loose_placeholder_counterexample :
    (Coin.getFormatData 0 "0x2::sui::SUI" FormatMode.loose).forcedFormatValue = some "- -" ∧
    (Coin.getFormatData 0 "0x2::sui::SUI" FormatMode.loose).forcedFormatValue ≠ some "– –" := by
  have h : (Coin.getFormatData 0 "0x2::sui::SUI" FormatMode.loose).forcedFormatValue
      = some "- -" := by
    simp [Coin.getFormatData, COIN_DENOMINATIONS]
  exact ⟨h, by rw [h]; decide⟩

/-- C3 (amended): for the recognized native coin type `"0x2::sui::SUI"`
(the only key of `COIN_DENOMINATIONS`, mapped to `1e9`) with balance
`500000000` in Loose mode, the value is `0.5`, the maximum fractional
digits are 8 and the symbol is `"SUI"`. -/
theorem getFormatData_sui_half :
    COIN_DENOMINATIONS "0x2::sui::SUI" = some (10 ^ 9) ∧
    (Coin.getFormatData 500000000 "0x2::sui::SUI" FormatMode.loose).value = 1 / 2 ∧
    (Coin.getFormatData 500000000 "0x2::sui::SUI" FormatMode.loose).formatOptions.maximumFractionDigits
        = some 8 ∧
    (Coin.getFormatData 500000000 "0x2::sui::SUI" FormatMode.loose).symbol = "SUI" := by
  refine ⟨by decide, ?_, ?_, by decide⟩ <;>
    simp [Coin.getFormatData, COIN_DENOMINATIONS] <;> norm_num

/-- C3 (counterexample): the coin type string `"pkg::sui::SUI"` of the
claim is not a key of `COIN_DENOMINATIONS`, so its denomination defaults
to 1: the Loose-mode value is `500000000`, not `0.5`, and the fractional
digits are 3, not 8. -/
theorem getFormatData_pkg_sui_counterexample :
    COIN_DENOMINATIONS "pkg::sui::SUI" = none ∧
    (Coin.getFormatData 500000000 "pkg::sui::SUI" FormatMode.loose).value = 500000000 ∧
    (500000000 : ℚ) ≠ 1 / 2 ∧
    (Coin.getFormatData 500000000 "pkg::sui::SUI" FormatMode.loose).formatOptions.maximumFractionDigits
        = some 3 ∧
    (Coin.getFormatData 500000000 "pkg::sui::SUI" FormatMode.loose).symbol = "SUI" := by
  refine ⟨by decide, ?_, by norm_num, ?_, by decide⟩ <;>
    simp [Coin.getFormatData, COIN_DENOMINATIONS]

/-- C4 (amended): whenever the input string parses as a decimal number
whose exact value `q`, the denomination `d`, and the product `q * d` are
all exactly representable in binary64 — the range on which the source's
float parse and float multiply are exact, so the model coincides with the
program — `Coin.fromInput` returns the integer nearest to `q * d`, with a
tie (exact half) rounded toward positive infinity (JavaScript
`Math.round`), not away from zero; outside this exact range the
conversion is lossy, as the source itself documents. -/
theorem fromInput_rounds_half_up (s : String) (d q : ℚ)
    (h : parseFloat s = some q)
    (_hq : isBinary64Representable q)
    (_hd : isBinary64Representable d)
    (_hprod : isBinary64Representable (q * d)) :
    ∃ n : ℤ, Coin.fromInput s d = some n ∧
      q * d - 1 / 2 < (n : ℚ) ∧ (n : ℚ) ≤ q * d + 1 / 2 := by
  refine ⟨⌊q * d + 1 / 2⌋, ?_, ?_, ?_⟩
  · simp [Coin.fromInput, h, jsMathRound]
  · have h1 := Int.lt_floor_add_one (q * d + 1 / 2)
    linarith
  · exact Int.floor_le (q * d + 1 / 2)

/-- C4 (witness): the input `"-0.5"` with denomination 1 parses to the
exactly representable value `-1 * 2 ^ (-1)`, the denomination and product
are representable too, and the result is an integer within a half of the
product. -/
theorem fromInput_rounds_half_up_witness :
    ∃ n : ℤ, Coin.fromInput "-0.5" 1 = some n ∧
      -(1 / 2 : ℚ) * 1 - 1 / 2 < (n : ℚ) ∧ (n : ℚ) ≤ -(1 / 2 : ℚ) * 1 + 1 / 2 :=
  fromInput_rounds_half_up "-0.5" 1 (-(1 / 2))
    (by
      simp [parseFloat, parseDecimalBody, parseExponentPart, digitsToNat, jsWhitespace]
      norm_num)
    ⟨-1, -1, by norm_num, by norm_num, by norm_num, by norm_num⟩
    ⟨1, 0, by norm_num, by norm_num, by norm_num, by norm_num⟩
    ⟨-1, -1, by norm_num, by norm_num, by norm_num, by norm_num⟩

/-- C4 (counterexample): on `"-0.5"` with denomination 1 the code rounds
the tie toward positive infinity and returns 0, while rounding the tie
away from zero — as the claim states — would return -1. -/
theorem fromInput_neg_half_counterexample :
    parseFloat "-0.5" = some (-(1 / 2 : ℚ)) ∧
    Coin.fromInput "-0.5" 1 = some 0 ∧
    roundHalfAwayFromZero (-(1 / 2 : ℚ) * 1) = -1 ∧
    (0 : ℤ) ≠ -1 := by
  refine ⟨?_, ?_, ?_, by decide⟩
  · simp [parseFloat, parseDecimalBody, parseExponentPart, digitsToNat, jsWhitespace]
    norm_num
  · simp [Coin.fromInput, parseFloat, parseDecimalBody, parseExponentPart, digitsToNat,
      jsWhitespace, jsMathRound]
    norm_num
  · simp [roundHalfAwayFromZero]
    norm_num

/-- C10: `Coin.fromInput` is not total over strings: an input with no
numeric prefix (for example the empty string or `"abc"`) makes `parseFloat`
return `NaN`, and the final `BigInt` conversion throws — modelled as
`none` — for every denomination. -/
theorem fromInput_not_total_on_unparsable :
    (∀ d : ℚ, Coin.fromInput "" d = none ∧ Coin.fromInput "abc" d = none) ∧
    (∀ (s : String) (d : ℚ), parseFloat s = none → Coin.fromInput s d = none) := by
  have h1 : parseFloat "" = none := by decide
  have h2 : parseFloat "abc" = none := by decide
  exact ⟨fun d => ⟨by simp [Coin.fromInput, h1], by simp [Coin.fromInput, h2]⟩,
    fun s d h => by simp [Coin.fromInput, h]⟩

/-- C10 (witness): a concrete unparsable input with a concrete
denomination. -/
theorem fromInput_not_total_witness : Coin.fromInput "xyz" 2 = none :=
  fromInput_not_total_on_unparsable.2 "xyz" 2 (by decide)

/-- C6 (witness): a one-effect batch reconciles to a concrete singleton
list, which is (trivially) sorted and digest-unique. -/
theorem reconciled_entries_sorted_nodup_witness :
    reconcileEffects "addr" [(1, "d1")] [sampleEffect] = Except.ok [sampleEntry] ∧
    (enrich none [sampleEntry]).Pairwise (fun a b => b.seq < a.seq) ∧
    ((enrich none [sampleEntry]).map TxResultState.txId).Nodup := by
  have hps : processEffects "addr" [(1, "d1")] [sampleEffect] =
      Except.ok [some sampleEntry] := rfl
  have hok : reconcileEffects "addr" [(1, "d1")] [sampleEffect] =
      Except.ok [sampleEntry] := by
    unfold reconcileEffects
    rw [hps]
    show Except.ok (([sampleEntry] : List TxResultState).mergeSort bySeqDesc) =
      Except.ok [sampleEntry]
    rw [List.mergeSort_singleton]
  exact ⟨hok, reconciled_entries_sorted_nodup "addr" [(1, "d1")] [sampleEffect] none
    [sampleEntry] (by decide) (by decide) hok⟩

/-- C7 (witness): in a concrete two-effect batch where the second effect
carries two operations, the cycle still succeeds and the multi-operation
digest is absent. -/
theorem multiOp_effect_dropped_no_failure_witness :
    ∃ l, reconcileEffects "addr" [(1, "d1"), (2, "d2")]
        [sampleEffect, sampleMultiOpEffect] = Except.ok l ∧
      ∀ entry ∈ l, entry.txId ≠ sampleMultiOpEffect.certificate.txDigest :=
  multiOp_effect_dropped_no_failure "addr" [(1, "d1"), (2, "d2")]
    [sampleEffect, sampleMultiOpEffect] sampleMultiOpEffect
    (by decide) (by decide) (by decide) (by decide) (by decide)

/-- C8 (witness): the enrichment stage applied to a concrete entry and an
empty batch payload keeps the list length. -/
theorem enrich_frame_preserving_witness :
    (enrich (some []) [sampleEntry]).length = [sampleEntry].length :=
  (enrich_frame_preserving (some []) [sampleEntry]).1

end SuiWallet
